import Mathlib

/-!
Verification development for the `calculator` skill
(`.github/skills/calculator/skill.py`).

The script evaluates a string with Python `eval` under the restricted
namespace `globals = \x7b"__builtins__": \x7b\x7d\x7d`, `locals = \x7b\x7d`, serializes the
outcome with `json.dumps`, and prints exactly one line.  The `__main__`
block checks `len(sys.argv) == 2`, printing a usage error and exiting
with code 1 otherwise.

The embedding below models the Python-expression fragment the script
inputs range over: integer literals, string literals, names, the
operators `+ - * / **`, unary `+`/`-`, the short-circuiting boolean
operators `and`/`or`, attribute access, parentheses, call expressions,
set displays, the empty dict display `\x7b\x7d` and the empty tuple display
`()`.  Python `int` is modelled as `Int` (arbitrary precision, as in
CPython).  Python `float` is modelled as an IEEE-754 binary64 double
represented by its exact rational value: every float-producing
operation rounds its exact rational result to the nearest double with
`roundQ` (round half to even), as CPython hardware arithmetic and its
correctly-rounded int/int true division do.  Remaining model
boundaries, each marked where it occurs: real-valued `**` with a
non-integer exponent, values beyond the finite double range
(no infinities), and the decimal rendering of a double, which prints
the exact expansion instead of the shortest round-tripping repr.
All error messages reproduce CPython `str(e)` texts for the modelled
fragment.
-/

/-- Python runtime values produced by the fragment: `int`, `float` (a
binary64 double carried as its exact rational value, see header),
`str`, `set`, the empty dict that the restricted globals bind to
`__builtins__`, the empty tuple, and class objects (reached through
`__class__`), carried as the name of the class. -/
inductive PyVal where
  | int (n : Int)
  | float (q : ℚ)
  | str (s : String)
  | set (elts : List PyVal)
  | dict0
  | tuple0
  | cls (c : String)

/-- Python type name for a value, as used in error messages. -/
def typeName : PyVal → String
  | .int _ => "int"
  | .float _ => "float"
  | .str _ => "str"
  | .set _ => "set"
  | .dict0 => "dict"
  | .tuple0 => "tuple"
  | .cls _ => "type"

/-- Values rejected by `set.add` (not hashable): sets and dicts
(the empty tuple and class objects are hashable). -/
def isUnhashable : PyVal → Bool
  | .set _ => true
  | .dict0 => true
  | _ => false

/-- Python truthiness of the fragment values, as `bool(v)`: zero
numbers and empty containers are falsy. -/
def truthy : PyVal → Bool
  | .int n => if n = 0 then false else true
  | .float q => if q = 0 then false else true
  | .str s => if s = "" then false else true
  | .set [] => false
  | .set _ => true
  | .dict0 => false
  | .tuple0 => false
  | .cls _ => true

/-- The rational value of a numeric `PyVal`, `none` on non-numbers. -/
def ratOf : PyVal → Option ℚ
  | .int n => some (n : ℚ)
  | .float q => some q
  | _ => none

/-- The exceptions the fragment can raise.  `nonRationalPow` marks the
model boundary: CPython computes a real-valued float there, which the
rational representation cannot hold exactly. -/
inductive PyErr where
  | nameError (n : String)
  | zeroDiv (msg : String)
  | typeError (msg : String)
  | attrError (msg : String)
  | synError
  | nonRationalPow

/-- Python `str(e)` for each modelled exception. -/
def errStr : PyErr → String
  | .nameError n => "name \x27" ++ n ++ "\x27 is not defined"
  | .zeroDiv m => m
  | .typeError m => m
  | .attrError m => m
  | .synError => "invalid syntax (<string>, line 1)"
  | .nonRationalPow => "non-rational power outside the rational model"

/-- Attribute lookup on the fragment values, as CPython `getattr`:
`v.__class__` is the class of `v` and `cls.__name__` is its name —
exactly the chain of the known restricted-`eval` escape — while every
class has `__class__` equal to `type`.  All other attributes are
outside the fragment and modelled as `AttributeError` with the CPython
message shape (real CPython objects expose many more attributes; the
fragment only needs these to witness that attribute access works). -/
def getAttr : PyVal → String → Except PyErr PyVal
  | .cls _, "__class__" => .ok (.cls "type")
  | .cls c, "__name__" => .ok (.str c)
  | .cls c, a =>
    .error (.attrError ("type object \x27" ++ c ++ "\x27 has no attribute \x27" ++ a ++ "\x27"))
  | v, "__class__" => .ok (.cls (typeName v))
  | v, a =>
    .error (.attrError ("\x27" ++ typeName v ++ "\x27 object has no attribute \x27" ++ a ++ "\x27"))

/-- Decimal digits of `n`, most significant first (`[]` for 0); the
fuel argument bounds the recursion and `fuel = n` always suffices. -/
def natDigitsAux : Nat → Nat → List Char
  | 0, _ => []
  | fuel + 1, n =>
    if n = 0 then []
    else natDigitsAux fuel (n / 10) ++ [Char.ofNat (48 + n % 10)]

/-- Decimal rendering of a natural number, as Python `repr`. -/
def natRepr (n : Nat) : String :=
  if n = 0 then "0" else ⟨natDigitsAux n n⟩

/-- Decimal rendering of an integer, as Python `repr`. -/
def intRepr : Int → String
  | .ofNat n => natRepr n
  | .negSucc m => "-" ++ natRepr (m + 1)

/-- Digits after the decimal point of `r / d` by long division (the
`% 10` is redundant under the invariant `r < d` but keeps each digit
syntactically below 10).  Fuel 17 mirrors double precision. -/
def fracDigits : Nat → Nat → Nat → List Char
  | 0, _, _ => []
  | fuel + 1, r, d =>
    if r = 0 then []
    else Char.ofNat (48 + (r * 10 / d) % 10) :: fracDigits fuel (r * 10 % d) d

/-- Rendering of a nonnegative rational as a Python float literal. -/
def floatAbs (q : ℚ) : String :=
  let ip := q.num.toNat / q.den
  let r := q.num.toNat % q.den
  natRepr ip ++ "." ++ (if r = 0 then "0" else ⟨fracDigits 17 r q.den⟩)

/-- Rendering of a double as a decimal: integral values as `k.0`,
otherwise the exact decimal expansion truncated at 17 fractional
digits.  CPython prints the shortest decimal that round-trips (and
scientific notation for extreme magnitudes); that algorithm is outside
the model, so for values like the double nearest `1/3` the rendered
digits differ from CPython while the value itself is identical — a
boundary of the rendering only, marked here. -/
def floatRepr (q : ℚ) : String :=
  if q < 0 then "-" ++ floatAbs (-q) else floatAbs q

/-- Lower-case hex digit for `n % 16`. -/
def hexDigit (n : Nat) : Char :=
  let m := n % 16
  if m < 10 then Char.ofNat (48 + m) else Char.ofNat (87 + m)

/-- A JSON `\u`-escape of a code point (points above 0xFFFF would use a
surrogate pair in CPython; the fragment inputs stay below it). -/
def hexEsc (t : Nat) : List Char :=
  ['\\', 'u', hexDigit (t / 4096), hexDigit (t / 256), hexDigit (t / 16), hexDigit t]

/-- `json.dumps` escaping of one character (`ensure_ascii=True`). -/
def escChar (c : Char) : List Char :=
  if c = '"' then ['\\', '"']
  else if c = '\\' then ['\\', '\\']
  else if c = '\n' then ['\\', 'n']
  else if c = '\t' then ['\\', 't']
  else if c = '\r' then ['\\', 'r']
  else if c = Char.ofNat 8 then ['\\', 'b']
  else if c = Char.ofNat 12 then ['\\', 'f']
  else if c.toNat < 32 ∨ 126 < c.toNat then hexEsc c.toNat
  else [c]

/-- `json.dumps` escaping of a character list. -/
def strEsc (cs : List Char) : List Char :=
  cs.foldr (fun c acc => escChar c ++ acc) []

/-- `json.dumps` of a Python string: quoted and escaped. -/
def jsonStr (s : String) : String :=
  ⟨'"' :: (strEsc s.data ++ ['"'])⟩

/-- `json.dumps` of a result value.  Sets are not JSON serializable:
CPython raises `TypeError` inside the same `try` as the evaluation. -/
def jsonDumps : PyVal → Except PyErr String
  | .int n => .ok (intRepr n)
  | .float q => .ok (floatRepr q)
  | .str s => .ok (jsonStr s)
  | .dict0 => .ok "\x7b\x7d"
  | .tuple0 => .ok "[]"
  | .set _ => .error (.typeError "Object of type set is not JSON serializable")
  | .cls _ => .error (.typeError "Object of type type is not JSON serializable")

/-- Floor of the base-2 logarithm of a natural number, with explicit
fuel (`fuel = n` always suffices since the argument halves). -/
def natLog2 : Nat → Nat → Nat
  | 0, _ => 0
  | fuel + 1, n => if n ≤ 1 then 0 else natLog2 fuel (n / 2) + 1

/-- Whether `2 ^ e ≤ n / d`, by integer cross-multiplication. -/
def pow2Le (e : Int) (n d : Nat) : Bool :=
  if 0 ≤ e then d * 2 ^ e.toNat ≤ n else d ≤ n * 2 ^ (-e).toNat

/-- `⌊log2 (n / d)⌋` for positive `n`, `d`: the difference of the
integer logs is within one of the answer, fixed by two comparisons. -/
def qLog2 (n d : Nat) : Int :=
  let e0 : Int := (natLog2 n n : Int) - (natLog2 d d : Int)
  if pow2Le (e0 + 1) n d then e0 + 1
  else if pow2Le e0 n d then e0
  else e0 - 1

/-- Rounding of an exact rational to the nearest IEEE-754 binary64
double (round half to even), the result again as an exact rational.
The quantum exponent is `max (⌊log2 |q|⌋ - 52) (-1074)`, so subnormal
underflow (including underflow to `0.0`) is modelled; magnitudes beyond
the finite double range are returned at 53-bit precision instead of
becoming an infinity — a model boundary, unreachable in the claims. -/
def roundQ (q : ℚ) : ℚ :=
  if q = 0 then 0
  else
    let n := q.num.natAbs
    let d := q.den
    let e := qLog2 n d
    let t : Int := max (e - 52) (-1074)
    let N := n * 2 ^ (-t).toNat
    let D := d * 2 ^ t.toNat
    let m0 := N / D
    let r := N % D
    let m := if 2 * r < D then m0
             else if D < 2 * r then m0 + 1
             else if m0 % 2 = 0 then m0 else m0 + 1
    let sm : Int := if q.num < 0 then -(m : Int) else (m : Int)
    if 0 ≤ t then ((sm * 2 ^ t.toNat : Int) : ℚ) else Rat.divInt sm (2 ^ (-t).toNat)

mutual
/-- The abstract syntax of the modelled Python-expression fragment
(`PyArgs` is the comma-separated expression list of a call or a set
display, kept mutual for clean structural induction). -/
inductive PyExpr where
  | intLit (n : Nat)
  | strLit (s : String)
  | name (s : String)
  | neg (a : PyExpr)
  | pos (a : PyExpr)
  | add (a b : PyExpr)
  | sub (a b : PyExpr)
  | mul (a b : PyExpr)
  | div (a b : PyExpr)
  | pow (a b : PyExpr)
  | andE (a b : PyExpr)
  | orE (a b : PyExpr)
  | attr (a : PyExpr) (field : String)
  | call (f : PyExpr) (args : PyArgs)
  | setDisp (elts : PyArgs)
  | emptyDict
  | emptyTuple
inductive PyArgs where
  | nil
  | cons (head : PyExpr) (tail : PyArgs)
end

/-- Python `+` on the fragment values: numeric addition (an `int`
operand next to a `float` converts to a double first, and the double
result is rounded, exactly as CPython hardware arithmetic does), string
concatenation, `TypeError` otherwise, with CPython message. -/
def binAdd : PyVal → PyVal → Except PyErr PyVal
  | .int x, .int y => .ok (.int (x + y))
  | .int x, .float q => .ok (.float (roundQ (roundQ (x : ℚ) + q)))
  | .float p, .int y => .ok (.float (roundQ (p + roundQ (y : ℚ))))
  | .float p, .float q => .ok (.float (roundQ (p + q)))
  | .str s, .str t => .ok (.str (s ++ t))
  | x, y => .error (.typeError ("unsupported operand type(s) for +: \x27" ++ typeName x ++ "\x27 and \x27" ++ typeName y ++ "\x27"))

/-- Python `-` on the fragment values (rounded like `+`). -/
def binSub : PyVal → PyVal → Except PyErr PyVal
  | .int x, .int y => .ok (.int (x - y))
  | .int x, .float q => .ok (.float (roundQ (roundQ (x : ℚ) - q)))
  | .float p, .int y => .ok (.float (roundQ (p - roundQ (y : ℚ))))
  | .float p, .float q => .ok (.float (roundQ (p - q)))
  | x, y => .error (.typeError ("unsupported operand type(s) for -: \x27" ++ typeName x ++ "\x27 and \x27" ++ typeName y ++ "\x27"))

/-- Python `*` on the fragment values (rounded like `+`; sequence
repetition is outside the fragment). -/
def binMul : PyVal → PyVal → Except PyErr PyVal
  | .int x, .int y => .ok (.int (x * y))
  | .int x, .float q => .ok (.float (roundQ (roundQ (x : ℚ) * q)))
  | .float p, .int y => .ok (.float (roundQ (p * roundQ (y : ℚ))))
  | .float p, .float q => .ok (.float (roundQ (p * q)))
  | x, y => .error (.typeError ("unsupported operand type(s) for *: \x27" ++ typeName x ++ "\x27 and \x27" ++ typeName y ++ "\x27"))

/-- Python `/` (true division): the result is always a float; division
by zero raises, with the int/float message distinction of CPython.
`int / int` is the correctly rounded double of the exact quotient (as
CPython long_true_divide computes it); with a float operand the other
operand converts to a double first and the division result rounds. -/
def binDiv : PyVal → PyVal → Except PyErr PyVal
  | .int x, .int y =>
    if y = 0 then .error (.zeroDiv "division by zero")
    else .ok (.float (roundQ ((x : ℚ) / (y : ℚ))))
  | .int x, .float q =>
    if q = 0 then .error (.zeroDiv "float division by zero")
    else .ok (.float (roundQ (roundQ (x : ℚ) / q)))
  | .float p, .int y =>
    if y = 0 then .error (.zeroDiv "float division by zero")
    else .ok (.float (roundQ (p / roundQ (y : ℚ))))
  | .float p, .float q =>
    if q = 0 then .error (.zeroDiv "float division by zero")
    else .ok (.float (roundQ (p / q)))
  | x, y => .error (.typeError ("unsupported operand type(s) for /: \x27" ++ typeName x ++ "\x27 and \x27" ++ typeName y ++ "\x27"))

/-- Python float `**` with double base and exponent.  Only integral
exponents stay inside the rational model; the double result is
rounded (idealizing libm pow as correctly rounded). -/
def powFloat (p q : ℚ) : Except PyErr PyVal :=
  if q.den = 1 then
    if p = 0 ∧ q.num < 0 then .error (.zeroDiv "0.0 cannot be raised to a negative power")
    else .ok (.float (roundQ (p ^ q.num)))
  else .error .nonRationalPow

/-- Python `**` on the fragment values (`int ** nonnegative int` is an
exact int, otherwise a rounded float; `0 ** negative` raises; an `int`
base next to a float exponent converts to a double first). -/
def binPow : PyVal → PyVal → Except PyErr PyVal
  | .int x, .int y =>
    if 0 ≤ y then .ok (.int (x ^ y.toNat))
    else if x = 0 then .error (.zeroDiv "0.0 cannot be raised to a negative power")
    else .ok (.float (roundQ (roundQ (x : ℚ) ^ y)))
  | .int x, .float q => powFloat (roundQ (x : ℚ)) q
  | .float p, .int y =>
    if p = 0 ∧ y < 0 then .error (.zeroDiv "0.0 cannot be raised to a negative power")
    else .ok (.float (roundQ (p ^ y)))
  | .float p, .float q => powFloat p q
  | x, y => .error (.typeError ("unsupported operand type(s) for ** or pow(): \x27" ++ typeName x ++ "\x27 and \x27" ++ typeName y ++ "\x27"))

/-- Python unary `-`. -/
def unNeg : PyVal → Except PyErr PyVal
  | .int n => .ok (.int (-n))
  | .float q => .ok (.float (-q))
  | v => .error (.typeError ("bad operand type for unary -: \x27" ++ typeName v ++ "\x27"))

/-- Python unary `+`. -/
def unPos : PyVal → Except PyErr PyVal
  | .int n => .ok (.int n)
  | .float q => .ok (.float q)
  | v => .error (.typeError ("bad operand type for unary +: \x27" ++ typeName v ++ "\x27"))

mutual
/-- Evaluation of the fragment under the script namespaces
`eval(expression, \x7b"__builtins__": \x7b\x7d\x7d, \x7b\x7d)`: the only resolvable
name is `__builtins__` (bound to the empty dict); every other name
raises `NameError`.  A call evaluates its callee and arguments first
(as CPython `CALL` does) and then raises `TypeError`, since no value
of the fragment is callable.  A set display evaluates its elements and
rejects unhashable ones.  `and`/`or` short-circuit on Python
truthiness, so the right operand — and any disallowed name in it — may
never be evaluated, exactly as in CPython.  Attribute access evaluates
the object and then `getAttr`. -/
def evalExpr : PyExpr → Except PyErr PyVal
  | .intLit n => .ok (.int (n : Int))
  | .strLit s => .ok (.str s)
  | .name s => if s = "__builtins__" then .ok .dict0 else .error (.nameError s)
  | .neg a =>
    match evalExpr a with
    | .error e => .error e
    | .ok v => unNeg v
  | .pos a =>
    match evalExpr a with
    | .error e => .error e
    | .ok v => unPos v
  | .add a b =>
    match evalExpr a with
    | .error e => .error e
    | .ok va =>
      match evalExpr b with
      | .error e => .error e
      | .ok vb => binAdd va vb
  | .sub a b =>
    match evalExpr a with
    | .error e => .error e
    | .ok va =>
      match evalExpr b with
      | .error e => .error e
      | .ok vb => binSub va vb
  | .mul a b =>
    match evalExpr a with
    | .error e => .error e
    | .ok va =>
      match evalExpr b with
      | .error e => .error e
      | .ok vb => binMul va vb
  | .div a b =>
    match evalExpr a with
    | .error e => .error e
    | .ok va =>
      match evalExpr b with
      | .error e => .error e
      | .ok vb => binDiv va vb
  | .pow a b =>
    match evalExpr a with
    | .error e => .error e
    | .ok va =>
      match evalExpr b with
      | .error e => .error e
      | .ok vb => binPow va vb
  | .andE a b =>
    match evalExpr a with
    | .error e => .error e
    | .ok va => if truthy va then evalExpr b else .ok va
  | .orE a b =>
    match evalExpr a with
    | .error e => .error e
    | .ok va => if truthy va then .ok va else evalExpr b
  | .attr a field =>
    match evalExpr a with
    | .error e => .error e
    | .ok va => getAttr va field
  | .call f args =>
    match evalExpr f with
    | .error e => .error e
    | .ok fv =>
      match evalArgs args with
      | .error e => .error e
      | .ok _ => .error (.typeError ("\x27" ++ typeName fv ++ "\x27 object is not callable"))
  | .setDisp elts =>
    match evalArgs elts with
    | .error e => .error e
    | .ok vs =>
      match vs.find? isUnhashable with
      | some v => .error (.typeError ("unhashable type: \x27" ++ typeName v ++ "\x27"))
      | none => .ok (.set vs)
  | .emptyDict => .ok .dict0
  | .emptyTuple => .ok .tuple0
def evalArgs : PyArgs → Except PyErr (List PyVal)
  | .nil => .ok []
  | .cons e es =>
    match evalExpr e with
    | .error err => .error err
    | .ok v =>
      match evalArgs es with
      | .error err => .error err
      | .ok vs => .ok (v :: vs)
end

mutual
/-- Whether an expression references an identifier outside arithmetic
literals and operators: any bare name other than `__builtins__` (the
one name the restricted globals actually bind), and any attribute
identifier. -/
def hasBadName : PyExpr → Bool
  | .intLit _ => false
  | .strLit _ => false
  | .name s => if s = "__builtins__" then false else true
  | .neg a => hasBadName a
  | .pos a => hasBadName a
  | .add a b => hasBadName a || hasBadName b
  | .sub a b => hasBadName a || hasBadName b
  | .mul a b => hasBadName a || hasBadName b
  | .div a b => hasBadName a || hasBadName b
  | .pow a b => hasBadName a || hasBadName b
  | .andE a b => hasBadName a || hasBadName b
  | .orE a b => hasBadName a || hasBadName b
  | .attr _ _ => true
  | .call f args => hasBadName f || hasBadNameArgs args
  | .setDisp elts => hasBadNameArgs elts
  | .emptyDict => false
  | .emptyTuple => false
def hasBadNameArgs : PyArgs → Bool
  | .nil => false
  | .cons e es => hasBadName e || hasBadNameArgs es
end

/-- Modelled from the spec: the mathematical value of a valid
arithmetic expression (numeric literals and the operators
`+ - * / ( ) **`), as an exact rational; `none` when the expression is
not purely arithmetic or its value is undefined (division by zero,
`0 ** negative`) or irrational (non-integer exponent). -/
def specMathVal : PyExpr → Option ℚ
  | .intLit n => some (n : ℚ)
  | .neg a =>
    match specMathVal a with
    | some x => some (-x)
    | none => none
  | .pos a => specMathVal a
  | .add a b =>
    match specMathVal a, specMathVal b with
    | some x, some y => some (x + y)
    | _, _ => none
  | .sub a b =>
    match specMathVal a, specMathVal b with
    | some x, some y => some (x - y)
    | _, _ => none
  | .mul a b =>
    match specMathVal a, specMathVal b with
    | some x, some y => some (x * y)
    | _, _ => none
  | .div a b =>
    match specMathVal a, specMathVal b with
    | some x, some y => if y = 0 then none else some (x / y)
    | _, _ => none
  | .pow a b =>
    match specMathVal a, specMathVal b with
    | some x, some y =>
      if y.den = 1 then
        (if x = 0 ∧ y.num < 0 then none else some (x ^ y.num))
      else none
    | _, _ => none
  | _ => none

/-- `some w` when `w` is exactly representable as a finite binary64
double — a fixed point of `roundQ` whose magnitude stays below
`2 ^ 1024` (stated on num/den to keep the bound in integers) — else
`none`.  The range side keeps values out that `roundQ` leaves fixed
only because the model has no infinities. -/
def exRound (w : ℚ) : Option ℚ :=
  if roundQ w = w ∧ w.num.natAbs < 2 ^ 1024 * w.den then some w else none

/-- Modelled from the spec and restricted as the counterexample
forces: the mathematical value of a valid arithmetic expression,
defined only when the value of every subexpression is exactly
representable as a finite binary64 double, so that the program double
arithmetic performs no rounding along the way and stays inside the
finite double range.  On expressions outside
this restriction (such as `1/3`) the program returns the rounded
double instead of the mathematical value. -/
def specExactVal : PyExpr → Option ℚ
  | .intLit n => exRound (n : ℚ)
  | .neg a =>
    match specExactVal a with
    | some x => exRound (-x)
    | none => none
  | .pos a => specExactVal a
  | .add a b =>
    match specExactVal a, specExactVal b with
    | some x, some y => exRound (x + y)
    | _, _ => none
  | .sub a b =>
    match specExactVal a, specExactVal b with
    | some x, some y => exRound (x - y)
    | _, _ => none
  | .mul a b =>
    match specExactVal a, specExactVal b with
    | some x, some y => exRound (x * y)
    | _, _ => none
  | .div a b =>
    match specExactVal a, specExactVal b with
    | some x, some y => if y = 0 then none else exRound (x / y)
    | _, _ => none
  | .pow a b =>
    match specExactVal a, specExactVal b with
    | some x, some y =>
      if y.den = 1 then
        (if x = 0 ∧ y.num < 0 then none else exRound (x ^ y.num))
      else none
    | _, _ => none
  | _ => none

/-- Tokens of the fragment surface syntax. -/
inductive Tok where
  | int (n : Nat)
  | name (s : String)
  | str (s : String)
  | plus
  | minus
  | star
  | slash
  | dstar
  | andT
  | orT
  | dot
  | lparen
  | rparen
  | lbrace
  | rbrace
  | comma

/-- Python keywords other than `and` and `or`.  CPython treats them
specially (constants like `True`, operators like `not`, statement
words that are syntax errors in an expression); none of them is a name
looked up in the namespaces.  The fragment maps them all to a syntax
error, so the parser never mistakes a keyword for a bare name. -/
def pyKeyword (w : String) : Bool :=
  w = "False" || w = "None" || w = "True" || w = "as" || w = "assert" ||
  w = "async" || w = "await" || w = "break" || w = "class" || w = "continue" ||
  w = "def" || w = "del" || w = "elif" || w = "else" || w = "except" ||
  w = "finally" || w = "for" || w = "from" || w = "global" || w = "if" ||
  w = "import" || w = "in" || w = "is" || w = "lambda" || w = "nonlocal" ||
  w = "not" || w = "pass" || w = "raise" || w = "return" || w = "try" ||
  w = "while" || w = "with" || w = "yield"

/-- Decimal digit character. -/
def isDigitCh (c : Char) : Bool := 48 ≤ c.toNat && c.toNat ≤ 57

/-- First character of an identifier. -/
def isIdStart (c : Char) : Bool := c.isAlpha || c = '_'

/-- Subsequent character of an identifier. -/
def isIdChar (c : Char) : Bool := c.isAlpha || isDigitCh c || c = '_'

/-- Numeric value of a digit sequence. -/
def digitsVal (ds : List Char) : Nat :=
  ds.foldl (fun acc c => 10 * acc + (c.toNat - 48)) 0

/-- Prepends a token to a tokenizer result. -/
def tokCons (t : Tok) : Except PyErr (List Tok) → Except PyErr (List Tok)
  | .error e => .error e
  | .ok ts => .ok (t :: ts)

/-- Tokenizer for the fragment: integer literals, identifiers (with
the keywords `and`/`or` recognized as operators and every other Python
keyword rejected), single-quoted string literals, the operators
`+ - * / **`, `.`, parentheses, braces and commas; spaces and tabs are
skipped.  A digit run followed by `.` (a float literal) and any other
character are syntax errors — CPython covers more (float literals,
comparisons, conditional expressions, subscripts), which lies outside
the modelled fragment; the parse-level claims quantify only over what
`parseExpr` accepts.  The fuel argument bounds the recursion;
`length + 1` always suffices since every step consumes at least one
character. -/
def tokenize : Nat → List Char → Except PyErr (List Tok)
  | 0, _ => .error .synError
  | _ + 1, [] => .ok []
  | fuel + 1, c :: cs =>
    if c = ' ' ∨ c = '\t' then tokenize fuel cs
    else if isDigitCh c then
      if ((c :: cs).dropWhile isDigitCh).head? = some '.' then .error .synError
      else
        tokCons (.int (digitsVal ((c :: cs).takeWhile isDigitCh)))
          (tokenize fuel ((c :: cs).dropWhile isDigitCh))
    else if isIdStart c then
      if (⟨(c :: cs).takeWhile isIdChar⟩ : String) = "and" then
        tokCons .andT (tokenize fuel ((c :: cs).dropWhile isIdChar))
      else if (⟨(c :: cs).takeWhile isIdChar⟩ : String) = "or" then
        tokCons .orT (tokenize fuel ((c :: cs).dropWhile isIdChar))
      else if pyKeyword ⟨(c :: cs).takeWhile isIdChar⟩ then .error .synError
      else
        tokCons (.name ⟨(c :: cs).takeWhile isIdChar⟩)
          (tokenize fuel ((c :: cs).dropWhile isIdChar))
    else if c = Char.ofNat 39 then
      match cs.dropWhile (fun d => !(d = Char.ofNat 39)) with
      | [] => .error .synError
      | _ :: rest =>
        tokCons (.str ⟨cs.takeWhile (fun d => !(d = Char.ofNat 39))⟩)
          (tokenize fuel rest)
    else if c = '*' then
      match cs with
      | '*' :: cs2 => tokCons .dstar (tokenize fuel cs2)
      | _ => tokCons .star (tokenize fuel cs)
    else if c = '+' then tokCons .plus (tokenize fuel cs)
    else if c = '-' then tokCons .minus (tokenize fuel cs)
    else if c = '/' then tokCons .slash (tokenize fuel cs)
    else if c = '.' then tokCons .dot (tokenize fuel cs)
    else if c = '(' then tokCons .lparen (tokenize fuel cs)
    else if c = ')' then tokCons .rparen (tokenize fuel cs)
    else if c = Char.ofNat 123 then tokCons .lbrace (tokenize fuel cs)
    else if c = Char.ofNat 125 then tokCons .rbrace (tokenize fuel cs)
    else if c = ',' then tokCons .comma (tokenize fuel cs)
    else .error .synError

mutual
/-- Top expression level of the recursive-descent parser: the
short-circuiting `or` (Python `expression`/`disjunction`, with the
fragment omitting conditional expressions and `not`).  All parser
functions take a fuel argument bounding the call depth; every parse
error is the `SyntaxError` that CPython `eval` would raise while
compiling. -/
def pOr : Nat → List Tok → Except PyErr (PyExpr × List Tok)
  | 0, _ => .error .synError
  | fuel + 1, ts =>
    match pAnd fuel ts with
    | .error e => .error e
    | .ok (x, r) => pOrLoop fuel x r
/-- Left chain of `or`. -/
def pOrLoop : Nat → PyExpr → List Tok → Except PyErr (PyExpr × List Tok)
  | 0, _, _ => .error .synError
  | fuel + 1, acc, .orT :: ts =>
    match pAnd fuel ts with
    | .error e => .error e
    | .ok (y, r) => pOrLoop fuel (.orE acc y) r
  | _ + 1, acc, ts => .ok (acc, ts)
/-- Conjunction level: the short-circuiting `and`. -/
def pAnd : Nat → List Tok → Except PyErr (PyExpr × List Tok)
  | 0, _ => .error .synError
  | fuel + 1, ts =>
    match pAdd fuel ts with
    | .error e => .error e
    | .ok (x, r) => pAndLoop fuel x r
/-- Left chain of `and`. -/
def pAndLoop : Nat → PyExpr → List Tok → Except PyErr (PyExpr × List Tok)
  | 0, _, _ => .error .synError
  | fuel + 1, acc, .andT :: ts =>
    match pAdd fuel ts with
    | .error e => .error e
    | .ok (y, r) => pAndLoop fuel (.andE acc y) r
  | _ + 1, acc, ts => .ok (acc, ts)
/-- Additive level (the fragment skips the comparison level between
`and` and `+`). -/
def pAdd : Nat → List Tok → Except PyErr (PyExpr × List Tok)
  | 0, _ => .error .synError
  | fuel + 1, ts =>
    match pMul fuel ts with
    | .error e => .error e
    | .ok (x, r) => pAddLoop fuel x r
/-- Left-associative chain of `+` and `-`. -/
def pAddLoop : Nat → PyExpr → List Tok → Except PyErr (PyExpr × List Tok)
  | 0, _, _ => .error .synError
  | fuel + 1, acc, .plus :: ts =>
    match pMul fuel ts with
    | .error e => .error e
    | .ok (y, r) => pAddLoop fuel (.add acc y) r
  | fuel + 1, acc, .minus :: ts =>
    match pMul fuel ts with
    | .error e => .error e
    | .ok (y, r) => pAddLoop fuel (.sub acc y) r
  | _ + 1, acc, ts => .ok (acc, ts)
/-- Multiplicative level (`term`). -/
def pMul : Nat → List Tok → Except PyErr (PyExpr × List Tok)
  | 0, _ => .error .synError
  | fuel + 1, ts =>
    match pFactor fuel ts with
    | .error e => .error e
    | .ok (x, r) => pMulLoop fuel x r
/-- Left-associative chain of `*` and `/`. -/
def pMulLoop : Nat → PyExpr → List Tok → Except PyErr (PyExpr × List Tok)
  | 0, _, _ => .error .synError
  | fuel + 1, acc, .star :: ts =>
    match pFactor fuel ts with
    | .error e => .error e
    | .ok (y, r) => pMulLoop fuel (.mul acc y) r
  | fuel + 1, acc, .slash :: ts =>
    match pFactor fuel ts with
    | .error e => .error e
    | .ok (y, r) => pMulLoop fuel (.div acc y) r
  | _ + 1, acc, ts => .ok (acc, ts)
/-- Unary level (`factor`): `-x`, `+x`, or a power. -/
def pFactor : Nat → List Tok → Except PyErr (PyExpr × List Tok)
  | 0, _ => .error .synError
  | fuel + 1, .minus :: ts =>
    match pFactor fuel ts with
    | .error e => .error e
    | .ok (e, r) => .ok (.neg e, r)
  | fuel + 1, .plus :: ts =>
    match pFactor fuel ts with
    | .error e => .error e
    | .ok (e, r) => .ok (.pos e, r)
  | fuel + 1, ts => pPower fuel ts
/-- Power level: `base ** factor`, right-associative, and the exponent
may carry unary signs (Python `power: await_primary [** factor]`). -/
def pPower : Nat → List Tok → Except PyErr (PyExpr × List Tok)
  | 0, _ => .error .synError
  | fuel + 1, ts =>
    match pPost fuel ts with
    | .error e => .error e
    | .ok (b, r) =>
      match r with
      | .dstar :: r2 =>
        match pFactor fuel r2 with
        | .error e => .error e
        | .ok (e, r3) => .ok (.pow b e, r3)
      | _ => .ok (b, r)
/-- Postfix level: an atom followed by call argument lists. -/
def pPost : Nat → List Tok → Except PyErr (PyExpr × List Tok)
  | 0, _ => .error .synError
  | fuel + 1, ts =>
    match pAtom fuel ts with
    | .error e => .error e
    | .ok (a, r) => pPostLoop fuel a r
/-- Chain of `(...)` call and `.name` attribute suffixes. -/
def pPostLoop : Nat → PyExpr → List Tok → Except PyErr (PyExpr × List Tok)
  | 0, _, _ => .error .synError
  | fuel + 1, acc, .dot :: ts =>
    match ts with
    | .name a :: r2 => pPostLoop fuel (.attr acc a) r2
    | _ => .error .synError
  | fuel + 1, acc, .lparen :: ts =>
    match ts with
    | .rparen :: r2 => pPostLoop fuel (.call acc .nil) r2
    | _ =>
      match pArgs fuel ts with
      | .error e => .error e
      | .ok (args, r2) => pPostLoop fuel (.call acc args) r2
  | _ + 1, acc, ts => .ok (acc, ts)
/-- Nonempty comma-separated call arguments, consuming the `)`. -/
def pArgs : Nat → List Tok → Except PyErr (PyArgs × List Tok)
  | 0, _ => .error .synError
  | fuel + 1, ts =>
    match pOr fuel ts with
    | .error e => .error e
    | .ok (e, r) =>
      match r with
      | .comma :: r2 =>
        match pArgs fuel r2 with
        | .error er => .error er
        | .ok (rest, r3) => .ok (.cons e rest, r3)
      | .rparen :: r2 => .ok (.cons e .nil, r2)
      | _ => .error .synError
/-- Nonempty comma-separated set elements, consuming the `\x7d`. -/
def pSetItems : Nat → List Tok → Except PyErr (PyArgs × List Tok)
  | 0, _ => .error .synError
  | fuel + 1, ts =>
    match pOr fuel ts with
    | .error e => .error e
    | .ok (e, r) =>
      match r with
      | .comma :: r2 =>
        match pSetItems fuel r2 with
        | .error er => .error er
        | .ok (rest, r3) => .ok (.cons e rest, r3)
      | .rbrace :: r2 => .ok (.cons e .nil, r2)
      | _ => .error .synError
/-- Atoms: literals, names, parenthesized expressions, set displays,
the empty dict display `\x7b\x7d` and the empty tuple display `()`. -/
def pAtom : Nat → List Tok → Except PyErr (PyExpr × List Tok)
  | 0, _ => .error .synError
  | _ + 1, .int n :: ts => .ok (.intLit n, ts)
  | _ + 1, .str s :: ts => .ok (.strLit s, ts)
  | _ + 1, .name s :: ts => .ok (.name s, ts)
  | _ + 1, .lparen :: .rparen :: ts => .ok (.emptyTuple, ts)
  | fuel + 1, .lparen :: ts =>
    match pOr fuel ts with
    | .error e => .error e
    | .ok (e, r) =>
      match r with
      | .rparen :: r2 => .ok (e, r2)
      | _ => .error .synError
  | _ + 1, .lbrace :: .rbrace :: ts => .ok (.emptyDict, ts)
  | fuel + 1, .lbrace :: ts =>
    match pSetItems fuel ts with
    | .error e => .error e
    | .ok (elts, r) => .ok (.setDisp elts, r)
  | _, _ => .error .synError
end

/-- Parsing an input string: reject leading whitespace (CPython `eval`
raises an IndentationError there, also not a name lookup), tokenize,
parse one expression, and demand that all input is consumed — exactly
what compiling `expression` in `eval` mode does. -/
def parseExpr (s : String) : Except PyErr PyExpr :=
  if s.data.head? = some ' ' ∨ s.data.head? = some '\t' then .error .synError
  else
    match tokenize (s.length + 1) s.data with
    | .error e => .error e
    | .ok ts =>
      match pOr (10 * ts.length + 10) ts with
      | .error e => .error e
      | .ok (e, r) =>
        match r with
        | [] => .ok e
        | _ => .error .synError

/-- The `result = eval(expression, allowed_names, \x7b\x7d)` step of
`calculate`: parse, then evaluate. -/
def calcEval (s : String) : Except PyErr PyVal :=
  match parseExpr s with
  | .error e => .error e
  | .ok e => evalExpr e

/-- Evaluation followed by `json.dumps` of the result value — the whole
body of the `try` block of `calculate`. -/
def calcSer (s : String) : Except PyErr String :=
  match calcEval s with
  | .error e => .error e
  | .ok v => jsonDumps v

/-- The fixed part of the success output line:
`json.dumps(\x7b"status": "success", "result": result\x7d)` up to the
serialized result. -/
def successMark : String := "\x7b\"status\": \"success\", \"result\": "

/-- The fixed part of the error output line:
`json.dumps(\x7b"status": "error", "message": str(e)\x7d)` up to the
serialized message. -/
def errorMark : String := "\x7b\"status\": \"error\", \"message\": "

/-- The success output shape, around an already-serialized result. -/
def successLine (j : String) : String := successMark ++ j ++ "\x7d"

/-- The error output shape, around a raw message string (which
`json.dumps` quotes and escapes). -/
def errorLine (m : String) : String := errorMark ++ jsonStr m ++ "\x7d"

/-- The function `calculate` of `skill.py`: evaluate and serialize
inside one `try`, catching every exception into the error shape. -/
def calculate (s : String) : String :=
  match calcSer s with
  | .ok j => successLine j
  | .error err => errorLine (errStr err)

/-- The usage message printed on a wrong argument count. -/
def usageMessage : String := "Usage: ./run_skill.sh \x27<expression>\x27"

/-- The `__main__` block, over the argument list after the script name
(`sys.argv[1:]`): one argument runs `calculate` and exits 0; anything
else prints the usage error and exits 1.  The result pairs the line
written to stdout with the process exit code. -/
def runMain (args : List String) : String × Nat :=
  match args with
  | [e] => (calculate e, 0)
  | _ => (errorLine usageMessage, 1)

/-- Everything `print` writes to stdout for one invocation: the single
output line plus its terminating newline. -/
def mainStdout (args : List String) : String := (runMain args).1 ++ "\n"

/-- List-level prefix test (used to discriminate output shapes). -/
def startsWithL : List Char → List Char → Bool
  | [], _ => true
  | _ :: _, [] => false
  | c :: p, d :: t => c == d && startsWithL p t

/-- Whether an output line has the success shape. -/
def isSuccessLine (out : String) : Bool := startsWithL successMark.data out.data

/-- Whether an output line has the error shape. -/
def isErrorLine (out : String) : Bool := startsWithL errorMark.data out.data

/-- A character list without a line break. -/
def nlFreeL (l : List Char) : Prop := '\n' ∉ l

/-- A string without a line break (it prints as a single line). -/
def nlFreeS (s : String) : Prop := nlFreeL s.data

theorem nlFreeL_append (a b : List Char) (ha : nlFreeL a) (hb : nlFreeL b) :
    nlFreeL (a ++ b) := by
  unfold nlFreeL at *
  intro h
  rcases List.mem_append.1 h with h | h
  · exact ha h
  · exact hb h

theorem nlFreeS_append (a b : String) (ha : nlFreeS a) (hb : nlFreeS b) :
    nlFreeS (a ++ b) :=
  nlFreeL_append a.data b.data ha hb

theorem digitChar_ne_nl (m : Nat) : Char.ofNat (48 + m % 10) ≠ '\n' := by
  have h : m % 10 < 10 := Nat.mod_lt _ (by norm_num)
  revert h
  generalize m % 10 = k
  intro h
  interval_cases k <;> decide

theorem hexDigit_ne_nl (n : Nat) : hexDigit n ≠ '\n' := by
  unfold hexDigit
  have h : n % 16 < 16 := Nat.mod_lt _ (by norm_num)
  revert h
  generalize n % 16 = k
  intro h
  interval_cases k <;> decide

theorem nlFreeL_natDigitsAux (fuel : Nat) : ∀ n, nlFreeL (natDigitsAux fuel n) := by
  induction fuel with
  | zero => intro n; unfold natDigitsAux nlFreeL; simp
  | succ f ih =>
    intro n
    unfold natDigitsAux
    split
    · unfold nlFreeL; simp
    · refine nlFreeL_append _ _ (ih _) ?_
      unfold nlFreeL
      simp
      exact fun h => digitChar_ne_nl _ h.symm

theorem nlFreeS_natRepr (n : Nat) : nlFreeS (natRepr n) := by
  unfold natRepr
  split
  · unfold nlFreeS nlFreeL; decide
  · exact nlFreeL_natDigitsAux n n

theorem nlFreeS_intRepr (i : Int) : nlFreeS (intRepr i) := by
  cases i with
  | ofNat n => exact nlFreeS_natRepr n
  | negSucc m =>
    refine nlFreeS_append _ _ ?_ (nlFreeS_natRepr _)
    unfold nlFreeS nlFreeL; decide

theorem nlFreeL_fracDigits (fuel : Nat) : ∀ r d, nlFreeL (fracDigits fuel r d) := by
  induction fuel with
  | zero => intro r d; unfold fracDigits nlFreeL; simp
  | succ f ih =>
    intro r d
    unfold fracDigits
    split
    · unfold nlFreeL; simp
    · unfold nlFreeL
      intro h
      rcases List.mem_cons.1 h with h | h
      · exact digitChar_ne_nl _ h.symm
      · exact ih _ _ h

theorem nlFreeS_floatAbs (q : ℚ) : nlFreeS (floatAbs q) := by
  unfold floatAbs
  refine nlFreeS_append _ _ (nlFreeS_append _ _ (nlFreeS_natRepr _) ?_) ?_
  · unfold nlFreeS nlFreeL; decide
  · split
    · unfold nlFreeS nlFreeL; decide
    · exact nlFreeL_fracDigits _ _ _

theorem nlFreeS_floatRepr (q : ℚ) : nlFreeS (floatRepr q) := by
  unfold floatRepr
  split
  · refine nlFreeS_append _ _ ?_ (nlFreeS_floatAbs _)
    unfold nlFreeS nlFreeL; decide
  · exact nlFreeS_floatAbs _

theorem nlFreeL_hexEsc (t : Nat) : nlFreeL (hexEsc t) := by
  unfold hexEsc nlFreeL
  intro h
  simp only [List.mem_cons, List.not_mem_nil, or_false] at h
  rcases h with h | h | h | h | h | h
  · exact absurd h.symm (by decide)
  · exact absurd h.symm (by decide)
  · exact hexDigit_ne_nl _ h.symm
  · exact hexDigit_ne_nl _ h.symm
  · exact hexDigit_ne_nl _ h.symm
  · exact hexDigit_ne_nl _ h.symm

theorem nlFreeL_escChar (c : Char) : nlFreeL (escChar c) := by
  unfold escChar
  split
  · unfold nlFreeL; decide
  · split
    · unfold nlFreeL; decide
    · split
      · unfold nlFreeL; decide
      · split
        · unfold nlFreeL; decide
        · split
          · unfold nlFreeL; decide
          · split
            · unfold nlFreeL; decide
            · split
              · unfold nlFreeL; decide
              · split
                · exact nlFreeL_hexEsc _
                · rename_i h3 h
                  unfold nlFreeL
                  intro hm
                  rcases List.mem_singleton.1 hm with hm
                  exact absurd hm.symm (by
                    intro hc
                    exact absurd hc (by
                      rename_i h1 h2 h3' h4 h5 h6 h7
                      exact h3'))

theorem nlFreeL_strEsc (cs : List Char) : nlFreeL (strEsc cs) := by
  induction cs with
  | nil => unfold strEsc nlFreeL; simp
  | cons c cs ih =>
    have h : strEsc (c :: cs) = escChar c ++ strEsc cs := rfl
    rw [h]
    exact nlFreeL_append _ _ (nlFreeL_escChar c) ih

theorem nlFreeS_jsonStr (s : String) : nlFreeS (jsonStr s) := by
  unfold jsonStr nlFreeS nlFreeL
  intro h
  rcases List.mem_cons.1 h with h | h
  · exact absurd h (by decide)
  · rcases List.mem_append.1 h with h | h
    · exact nlFreeL_strEsc s.data h
    · rcases List.mem_cons.1 h with h | h
      · exact absurd h (by decide)
      · exact absurd h (List.not_mem_nil _)

theorem nlFreeS_jsonDumps (v : PyVal) (j : String) (h : jsonDumps v = .ok j) :
    nlFreeS j := by
  cases v with
  | int n =>
    simp only [jsonDumps, Except.ok.injEq] at h
    exact h ▸ nlFreeS_intRepr n
  | float q =>
    simp only [jsonDumps, Except.ok.injEq] at h
    exact h ▸ nlFreeS_floatRepr q
  | str s =>
    simp only [jsonDumps, Except.ok.injEq] at h
    exact h ▸ nlFreeS_jsonStr s
  | set elts => exact Except.noConfusion h
  | dict0 =>
    simp only [jsonDumps, Except.ok.injEq] at h
    subst h
    unfold nlFreeS nlFreeL
    decide
  | tuple0 =>
    simp only [jsonDumps, Except.ok.injEq] at h
    subst h
    unfold nlFreeS nlFreeL
    decide
  | cls c => exact Except.noConfusion h

theorem nlFreeS_successLine (j : String) (hj : nlFreeS j) :
    nlFreeS (successLine j) := by
  unfold successLine
  refine nlFreeS_append _ _ (nlFreeS_append _ _ ?_ hj) ?_
  · unfold nlFreeS nlFreeL; decide
  · unfold nlFreeS nlFreeL; decide

theorem nlFreeS_errorLine (m : String) : nlFreeS (errorLine m) := by
  unfold errorLine
  refine nlFreeS_append _ _ (nlFreeS_append _ _ ?_ (nlFreeS_jsonStr m)) ?_
  · unfold nlFreeS nlFreeL; decide
  · unfold nlFreeS nlFreeL; decide

theorem calcSer_ok_nlFree (s : String) (j : String) (h : calcSer s = .ok j) :
    nlFreeS j := by
  unfold calcSer at h
  cases hv : calcEval s with
  | error e => rw [hv] at h; exact absurd h (by simp)
  | ok v => rw [hv] at h; exact nlFreeS_jsonDumps v j h

theorem nlFreeS_calculate (s : String) : nlFreeS (calculate s) := by
  unfold calculate
  cases h : calcSer s with
  | ok j => exact nlFreeS_successLine j (calcSer_ok_nlFree s j h)
  | error err => exact nlFreeS_errorLine (errStr err)

theorem calculate_shape (s : String) :
    (∃ j, calcSer s = .ok j ∧ calculate s = successLine j) ∨
      (∃ err, calcSer s = .error err ∧ calculate s = errorLine (errStr err)) := by
  unfold calculate
  cases h : calcSer s with
  | ok j => exact Or.inl ⟨j, rfl, rfl⟩
  | error err => exact Or.inr ⟨err, rfl, rfl⟩

theorem isSuccessLine_successLine (j : String) : isSuccessLine (successLine j) = true := rfl

theorem isErrorLine_successLine (j : String) : isErrorLine (successLine j) = false := rfl

theorem isErrorLine_errorLine (m : String) : isErrorLine (errorLine m) = true := rfl

theorem isSuccessLine_errorLine (m : String) : isSuccessLine (errorLine m) = false := rfl

theorem successLine_ne_errorLine (j m : String) : successLine j ≠ errorLine m := by
  intro h
  have hb : isErrorLine (successLine j) = isErrorLine (errorLine m) := congrArg isErrorLine h
  rw [isErrorLine_successLine, isErrorLine_errorLine] at hb
  exact Bool.noConfusion hb

theorem exRound_eq (w v : ℚ) (h : exRound w = some v) : roundQ v = v ∧ w = v := by
  unfold exRound at h
  by_cases hw : roundQ w = w ∧ w.num.natAbs < 2 ^ 1024 * w.den
  · rw [if_pos hw] at h
    injection h with h
    subst h
    exact ⟨hw.1, rfl⟩
  · rw [if_neg hw] at h
    exact Option.noConfusion h

theorem specExactVal_round : ∀ e : PyExpr, ∀ v : ℚ, specExactVal e = some v → roundQ v = v
  | .intLit n, v, h => by
    unfold specExactVal at h
    exact (exRound_eq _ _ h).1
  | .strLit _, v, h => by simp [specExactVal] at h
  | .name _, v, h => by simp [specExactVal] at h
  | .neg a, v, h => by
    unfold specExactVal at h
    cases ha : specExactVal a with
    | none => rw [ha] at h; exact Option.noConfusion h
    | some x => rw [ha] at h; exact (exRound_eq _ _ h).1
  | .pos a, v, h => by
    unfold specExactVal at h
    exact specExactVal_round a v h
  | .add a b, v, h => by
    unfold specExactVal at h
    cases ha : specExactVal a with
    | none => rw [ha] at h; exact Option.noConfusion h
    | some x =>
      cases hb : specExactVal b with
      | none => rw [ha, hb] at h; exact Option.noConfusion h
      | some y => rw [ha, hb] at h; exact (exRound_eq _ _ h).1
  | .sub a b, v, h => by
    unfold specExactVal at h
    cases ha : specExactVal a with
    | none => rw [ha] at h; exact Option.noConfusion h
    | some x =>
      cases hb : specExactVal b with
      | none => rw [ha, hb] at h; exact Option.noConfusion h
      | some y => rw [ha, hb] at h; exact (exRound_eq _ _ h).1
  | .mul a b, v, h => by
    unfold specExactVal at h
    cases ha : specExactVal a with
    | none => rw [ha] at h; exact Option.noConfusion h
    | some x =>
      cases hb : specExactVal b with
      | none => rw [ha, hb] at h; exact Option.noConfusion h
      | some y => rw [ha, hb] at h; exact (exRound_eq _ _ h).1
  | .div a b, v, h => by
    unfold specExactVal at h
    cases ha : specExactVal a with
    | none => rw [ha] at h; exact Option.noConfusion h
    | some x =>
      cases hb : specExactVal b with
      | none => rw [ha, hb] at h; exact Option.noConfusion h
      | some y =>
        rw [ha, hb] at h
        have h2 : (if y = 0 then (none : Option ℚ) else exRound (x / y)) = some v := h
        by_cases hy0 : y = 0
        · rw [if_pos hy0] at h2; exact Option.noConfusion h2
        · rw [if_neg hy0] at h2; exact (exRound_eq _ _ h2).1
  | .pow a b, v, h => by
    unfold specExactVal at h
    cases ha : specExactVal a with
    | none => rw [ha] at h; exact Option.noConfusion h
    | some x =>
      cases hb : specExactVal b with
      | none => rw [ha, hb] at h; exact Option.noConfusion h
      | some y =>
        rw [ha, hb] at h
        have h2 : (if y.den = 1 then
            (if x = 0 ∧ y.num < 0 then (none : Option ℚ) else exRound (x ^ y.num))
          else none) = some v := h
        by_cases hden : y.den = 1
        · rw [if_pos hden] at h2
          by_cases hnn : x = 0 ∧ y.num < 0
          · rw [if_pos hnn] at h2; exact Option.noConfusion h2
          · rw [if_neg hnn] at h2; exact (exRound_eq _ _ h2).1
        · rw [if_neg hden] at h2; exact Option.noConfusion h2
  | .andE _ _, v, h => by simp [specExactVal] at h
  | .orE _ _, v, h => by simp [specExactVal] at h
  | .attr _ _, v, h => by simp [specExactVal] at h
  | .call _ _, v, h => by simp [specExactVal] at h
  | .setDisp _, v, h => by simp [specExactVal] at h
  | .emptyDict, v, h => by simp [specExactVal] at h
  | .emptyTuple, v, h => by simp [specExactVal] at h

theorem unNeg_num (p : PyVal) (x : ℚ) (hx : ratOf p = some x) :
    ∃ c, unNeg p = .ok c ∧ ratOf c = some (-x) := by
  cases p with
  | int n =>
    injection hx with hx
    subst hx
    refine ⟨.int (-n), rfl, ?_⟩
    simp only [ratOf, Option.some.injEq]
    push_cast
    ring
  | float q =>
    injection hx with hx
    subst hx
    exact ⟨.float (-q), rfl, rfl⟩
  | str s => simp [ratOf] at hx
  | set l => simp [ratOf] at hx
  | dict0 => simp [ratOf] at hx
  | tuple0 => simp [ratOf] at hx
  | cls c => simp [ratOf] at hx

theorem unPos_num (p : PyVal) (x : ℚ) (hx : ratOf p = some x) :
    ∃ c, unPos p = .ok c ∧ ratOf c = some x := by
  cases p with
  | int n => exact ⟨.int n, rfl, hx⟩
  | float q => exact ⟨.float q, rfl, hx⟩
  | str s => simp [ratOf] at hx
  | set l => simp [ratOf] at hx
  | dict0 => simp [ratOf] at hx
  | tuple0 => simp [ratOf] at hx
  | cls c => simp [ratOf] at hx

theorem binAdd_num (pa pb : PyVal) (x y : ℚ) (hx : ratOf pa = some x)
    (hy : ratOf pb = some y) (hxr : roundQ x = x) (hyr : roundQ y = y)
    (hwr : roundQ (x + y) = x + y) :
    ∃ c, binAdd pa pb = .ok c ∧ ratOf c = some (x + y) := by
  cases pa with
  | int a =>
    injection hx with hx
    subst hx
    cases pb with
    | int b =>
      injection hy with hy
      subst hy
      refine ⟨.int (a + b), rfl, ?_⟩
      simp only [ratOf, Option.some.injEq]
      push_cast
      ring
    | float q =>
      injection hy with hy
      subst hy
      refine ⟨.float (roundQ (roundQ ((a : ℚ)) + q)), rfl, ?_⟩
      simp only [ratOf, Option.some.injEq]
      rw [hxr, hwr]
    | str s => simp [ratOf] at hy
    | set l => simp [ratOf] at hy
    | dict0 => simp [ratOf] at hy
    | tuple0 => simp [ratOf] at hy
    | cls c => simp [ratOf] at hy
  | float p =>
    injection hx with hx
    subst hx
    cases pb with
    | int b =>
      injection hy with hy
      subst hy
      refine ⟨.float (roundQ (p + roundQ ((b : ℚ)))), rfl, ?_⟩
      simp only [ratOf, Option.some.injEq]
      rw [hyr, hwr]
    | float q =>
      injection hy with hy
      subst hy
      refine ⟨.float (roundQ (p + q)), rfl, ?_⟩
      simp only [ratOf, Option.some.injEq]
      rw [hwr]
    | str s => simp [ratOf] at hy
    | set l => simp [ratOf] at hy
    | dict0 => simp [ratOf] at hy
    | tuple0 => simp [ratOf] at hy
    | cls c => simp [ratOf] at hy
  | str s => simp [ratOf] at hx
  | set l => simp [ratOf] at hx
  | dict0 => simp [ratOf] at hx
  | tuple0 => simp [ratOf] at hx
  | cls c => simp [ratOf] at hx

theorem binSub_num (pa pb : PyVal) (x y : ℚ) (hx : ratOf pa = some x)
    (hy : ratOf pb = some y) (hxr : roundQ x = x) (hyr : roundQ y = y)
    (hwr : roundQ (x - y) = x - y) :
    ∃ c, binSub pa pb = .ok c ∧ ratOf c = some (x - y) := by
  cases pa with
  | int a =>
    injection hx with hx
    subst hx
    cases pb with
    | int b =>
      injection hy with hy
      subst hy
      refine ⟨.int (a - b), rfl, ?_⟩
      simp only [ratOf, Option.some.injEq]
      push_cast
      ring
    | float q =>
      injection hy with hy
      subst hy
      refine ⟨.float (roundQ (roundQ ((a : ℚ)) - q)), rfl, ?_⟩
      simp only [ratOf, Option.some.injEq]
      rw [hxr, hwr]
    | str s => simp [ratOf] at hy
    | set l => simp [ratOf] at hy
    | dict0 => simp [ratOf] at hy
    | tuple0 => simp [ratOf] at hy
    | cls c => simp [ratOf] at hy
  | float p =>
    injection hx with hx
    subst hx
    cases pb with
    | int b =>
      injection hy with hy
      subst hy
      refine ⟨.float (roundQ (p - roundQ ((b : ℚ)))), rfl, ?_⟩
      simp only [ratOf, Option.some.injEq]
      rw [hyr, hwr]
    | float q =>
      injection hy with hy
      subst hy
      refine ⟨.float (roundQ (p - q)), rfl, ?_⟩
      simp only [ratOf, Option.some.injEq]
      rw [hwr]
    | str s => simp [ratOf] at hy
    | set l => simp [ratOf] at hy
    | dict0 => simp [ratOf] at hy
    | tuple0 => simp [ratOf] at hy
    | cls c => simp [ratOf] at hy
  | str s => simp [ratOf] at hx
  | set l => simp [ratOf] at hx
  | dict0 => simp [ratOf] at hx
  | tuple0 => simp [ratOf] at hx
  | cls c => simp [ratOf] at hx

theorem binMul_num (pa pb : PyVal) (x y : ℚ) (hx : ratOf pa = some x)
    (hy : ratOf pb = some y) (hxr : roundQ x = x) (hyr : roundQ y = y)
    (hwr : roundQ (x * y) = x * y) :
    ∃ c, binMul pa pb = .ok c ∧ ratOf c = some (x * y) := by
  cases pa with
  | int a =>
    injection hx with hx
    subst hx
    cases pb with
    | int b =>
      injection hy with hy
      subst hy
      refine ⟨.int (a * b), rfl, ?_⟩
      simp only [ratOf, Option.some.injEq]
      push_cast
      ring
    | float q =>
      injection hy with hy
      subst hy
      refine ⟨.float (roundQ (roundQ ((a : ℚ)) * q)), rfl, ?_⟩
      simp only [ratOf, Option.some.injEq]
      rw [hxr, hwr]
    | str s => simp [ratOf] at hy
    | set l => simp [ratOf] at hy
    | dict0 => simp [ratOf] at hy
    | tuple0 => simp [ratOf] at hy
    | cls c => simp [ratOf] at hy
  | float p =>
    injection hx with hx
    subst hx
    cases pb with
    | int b =>
      injection hy with hy
      subst hy
      refine ⟨.float (roundQ (p * roundQ ((b : ℚ)))), rfl, ?_⟩
      simp only [ratOf, Option.some.injEq]
      rw [hyr, hwr]
    | float q =>
      injection hy with hy
      subst hy
      refine ⟨.float (roundQ (p * q)), rfl, ?_⟩
      simp only [ratOf, Option.some.injEq]
      rw [hwr]
    | str s => simp [ratOf] at hy
    | set l => simp [ratOf] at hy
    | dict0 => simp [ratOf] at hy
    | tuple0 => simp [ratOf] at hy
    | cls c => simp [ratOf] at hy
  | str s => simp [ratOf] at hx
  | set l => simp [ratOf] at hx
  | dict0 => simp [ratOf] at hx
  | tuple0 => simp [ratOf] at hx
  | cls c => simp [ratOf] at hx

theorem binDiv_num (pa pb : PyVal) (x y : ℚ) (hx : ratOf pa = some x)
    (hy : ratOf pb = some y) (hxr : roundQ x = x) (hyr : roundQ y = y)
    (hy0 : y ≠ 0) (hwr : roundQ (x / y) = x / y) :
    ∃ c, binDiv pa pb = .ok c ∧ ratOf c = some (x / y) := by
  cases pa with
  | int a =>
    injection hx with hx
    subst hx
    cases pb with
    | int b =>
      injection hy with hy
      subst hy
      have hb : b ≠ 0 := by
        intro h0
        exact hy0 (by rw [h0]; norm_num)
      simp only [binDiv]
      rw [if_neg hb]
      refine ⟨.float (roundQ ((a : ℚ) / (b : ℚ))), rfl, ?_⟩
      simp only [ratOf, Option.some.injEq]
      rw [hwr]
    | float q =>
      injection hy with hy
      subst hy
      simp only [binDiv]
      rw [if_neg hy0]
      refine ⟨.float (roundQ (roundQ ((a : ℚ)) / q)), rfl, ?_⟩
      simp only [ratOf, Option.some.injEq]
      rw [hxr, hwr]
    | str s => simp [ratOf] at hy
    | set l => simp [ratOf] at hy
    | dict0 => simp [ratOf] at hy
    | tuple0 => simp [ratOf] at hy
    | cls c => simp [ratOf] at hy
  | float p =>
    injection hx with hx
    subst hx
    cases pb with
    | int b =>
      injection hy with hy
      subst hy
      have hb : b ≠ 0 := by
        intro h0
        exact hy0 (by rw [h0]; norm_num)
      simp only [binDiv]
      rw [if_neg hb]
      refine ⟨.float (roundQ (p / roundQ ((b : ℚ)))), rfl, ?_⟩
      simp only [ratOf, Option.some.injEq]
      rw [hyr, hwr]
    | float q =>
      injection hy with hy
      subst hy
      simp only [binDiv]
      rw [if_neg hy0]
      refine ⟨.float (roundQ (p / q)), rfl, ?_⟩
      simp only [ratOf, Option.some.injEq]
      rw [hwr]
    | str s => simp [ratOf] at hy
    | set l => simp [ratOf] at hy
    | dict0 => simp [ratOf] at hy
    | tuple0 => simp [ratOf] at hy
    | cls c => simp [ratOf] at hy
  | str s => simp [ratOf] at hx
  | set l => simp [ratOf] at hx
  | dict0 => simp [ratOf] at hx
  | tuple0 => simp [ratOf] at hx
  | cls c => simp [ratOf] at hx

theorem binPow_num (pa pb : PyVal) (x y : ℚ) (hx : ratOf pa = some x)
    (hy : ratOf pb = some y) (hxr : roundQ x = x) (hden : y.den = 1)
    (hnn : ¬(x = 0 ∧ y.num < 0)) (hwr : roundQ (x ^ y.num) = x ^ y.num) :
    ∃ c, binPow pa pb = .ok c ∧ ratOf c = some (x ^ y.num) := by
  cases pa with
  | int a =>
    injection hx with hx
    subst hx
    cases pb with
    | int b =>
      injection hy with hy
      subst hy
      simp only [Rat.num_intCast] at hnn hwr ⊢
      by_cases hb : 0 ≤ b
      · simp only [binPow]
        rw [if_pos hb]
        refine ⟨.int (a ^ b.toNat), rfl, ?_⟩
        simp only [ratOf, Option.some.injEq]
        have hbn : b = ((b.toNat : ℤ)) := (Int.toNat_of_nonneg hb).symm
        conv_rhs => rw [hbn]
        rw [zpow_natCast]
        push_cast
        ring
      · have ha : ¬(a : Int) = 0 := by
          intro h0
          refine hnn ⟨?_, ?_⟩
          · rw [h0]; norm_num
          · omega
        simp only [binPow]
        rw [if_neg hb, if_neg ha]
        refine ⟨.float (roundQ (roundQ ((a : ℚ)) ^ b)), rfl, ?_⟩
        simp only [ratOf, Option.some.injEq]
        rw [hxr, hwr]
    | float q =>
      injection hy with hy
      subst hy
      simp only [binPow]
      rw [hxr]
      simp only [powFloat]
      rw [if_pos hden, if_neg hnn]
      refine ⟨.float (roundQ ((a : ℚ) ^ q.num)), rfl, ?_⟩
      simp only [ratOf, Option.some.injEq]
      rw [hwr]
    | str s => simp [ratOf] at hy
    | set l => simp [ratOf] at hy
    | dict0 => simp [ratOf] at hy
    | tuple0 => simp [ratOf] at hy
    | cls c => simp [ratOf] at hy
  | float p =>
    injection hx with hx
    subst hx
    cases pb with
    | int b =>
      injection hy with hy
      subst hy
      simp only [Rat.num_intCast] at hnn hwr ⊢
      simp only [binPow]
      rw [if_neg hnn]
      refine ⟨.float (roundQ (p ^ b)), rfl, ?_⟩
      simp only [ratOf, Option.some.injEq]
      rw [hwr]
    | float q =>
      injection hy with hy
      subst hy
      simp only [binPow, powFloat]
      rw [if_pos hden, if_neg hnn]
      refine ⟨.float (roundQ (p ^ q.num)), rfl, ?_⟩
      simp only [ratOf, Option.some.injEq]
      rw [hwr]
    | str s => simp [ratOf] at hy
    | set l => simp [ratOf] at hy
    | dict0 => simp [ratOf] at hy
    | tuple0 => simp [ratOf] at hy
    | cls c => simp [ratOf] at hy
  | str s => simp [ratOf] at hx
  | set l => simp [ratOf] at hx
  | dict0 => simp [ratOf] at hx
  | tuple0 => simp [ratOf] at hx
  | cls c => simp [ratOf] at hx

theorem evalArith : ∀ e : PyExpr, ∀ v : ℚ, specExactVal e = some v →
    ∃ pv, evalExpr e = .ok pv ∧ ratOf pv = some v
  | .intLit n, v, h => by
    unfold specExactVal at h
    obtain ⟨hr, he⟩ := exRound_eq _ _ h
    refine ⟨.int (n : Int), rfl, ?_⟩
    simp only [ratOf, Option.some.injEq]
    rw [← he]
    push_cast
    ring
  | .strLit _, v, h => by simp [specExactVal] at h
  | .name _, v, h => by simp [specExactVal] at h
  | .neg a, v, h => by
    unfold specExactVal at h
    cases ha : specExactVal a with
    | none => rw [ha] at h; exact Option.noConfusion h
    | some x =>
      rw [ha] at h
      obtain ⟨hr, he⟩ := exRound_eq _ _ h
      obtain ⟨pa, hea, hra⟩ := evalArith a x ha
      obtain ⟨c, hc, hrc⟩ := unNeg_num pa x hra
      unfold evalExpr
      rw [hea]
      rw [he] at hrc
      exact ⟨c, hc, hrc⟩
  | .pos a, v, h => by
    unfold specExactVal at h
    obtain ⟨pa, hea, hra⟩ := evalArith a v h
    obtain ⟨c, hc, hrc⟩ := unPos_num pa v hra
    unfold evalExpr
    rw [hea]
    exact ⟨c, hc, hrc⟩
  | .add a b, v, h => by
    unfold specExactVal at h
    cases ha : specExactVal a with
    | none => rw [ha] at h; exact Option.noConfusion h
    | some x =>
      cases hb : specExactVal b with
      | none => rw [ha, hb] at h; exact Option.noConfusion h
      | some y =>
        rw [ha, hb] at h
        obtain ⟨hr, he⟩ := exRound_eq _ _ h
        rw [← he] at hr
        obtain ⟨pa, hea, hra⟩ := evalArith a x ha
        obtain ⟨pb, heb, hrb⟩ := evalArith b y hb
        obtain ⟨c, hc, hrc⟩ := binAdd_num pa pb x y hra hrb
          (specExactVal_round a x ha) (specExactVal_round b y hb) hr
        unfold evalExpr
        rw [hea, heb]
        rw [he] at hrc
        exact ⟨c, hc, hrc⟩
  | .sub a b, v, h => by
    unfold specExactVal at h
    cases ha : specExactVal a with
    | none => rw [ha] at h; exact Option.noConfusion h
    | some x =>
      cases hb : specExactVal b with
      | none => rw [ha, hb] at h; exact Option.noConfusion h
      | some y =>
        rw [ha, hb] at h
        obtain ⟨hr, he⟩ := exRound_eq _ _ h
        rw [← he] at hr
        obtain ⟨pa, hea, hra⟩ := evalArith a x ha
        obtain ⟨pb, heb, hrb⟩ := evalArith b y hb
        obtain ⟨c, hc, hrc⟩ := binSub_num pa pb x y hra hrb
          (specExactVal_round a x ha) (specExactVal_round b y hb) hr
        unfold evalExpr
        rw [hea, heb]
        rw [he] at hrc
        exact ⟨c, hc, hrc⟩
  | .mul a b, v, h => by
    unfold specExactVal at h
    cases ha : specExactVal a with
    | none => rw [ha] at h; exact Option.noConfusion h
    | some x =>
      cases hb : specExactVal b with
      | none => rw [ha, hb] at h; exact Option.noConfusion h
      | some y =>
        rw [ha, hb] at h
        obtain ⟨hr, he⟩ := exRound_eq _ _ h
        rw [← he] at hr
        obtain ⟨pa, hea, hra⟩ := evalArith a x ha
        obtain ⟨pb, heb, hrb⟩ := evalArith b y hb
        obtain ⟨c, hc, hrc⟩ := binMul_num pa pb x y hra hrb
          (specExactVal_round a x ha) (specExactVal_round b y hb) hr
        unfold evalExpr
        rw [hea, heb]
        rw [he] at hrc
        exact ⟨c, hc, hrc⟩
  | .div a b, v, h => by
    unfold specExactVal at h
    cases ha : specExactVal a with
    | none => rw [ha] at h; exact Option.noConfusion h
    | some x =>
      cases hb : specExactVal b with
      | none => rw [ha, hb] at h; exact Option.noConfusion h
      | some y =>
        rw [ha, hb] at h
        have h2 : (if y = 0 then (none : Option ℚ) else exRound (x / y)) = some v := h
        by_cases hy0 : y = 0
        · rw [if_pos hy0] at h2; exact Option.noConfusion h2
        · rw [if_neg hy0] at h2
          obtain ⟨hr, he⟩ := exRound_eq _ _ h2
          rw [← he] at hr
          obtain ⟨pa, hea, hra⟩ := evalArith a x ha
          obtain ⟨pb, heb, hrb⟩ := evalArith b y hb
          obtain ⟨c, hc, hrc⟩ := binDiv_num pa pb x y hra hrb
            (specExactVal_round a x ha) (specExactVal_round b y hb) hy0 hr
          unfold evalExpr
          rw [hea, heb]
          rw [he] at hrc
          exact ⟨c, hc, hrc⟩
  | .pow a b, v, h => by
    unfold specExactVal at h
    cases ha : specExactVal a with
    | none => rw [ha] at h; exact Option.noConfusion h
    | some x =>
      cases hb : specExactVal b with
      | none => rw [ha, hb] at h; exact Option.noConfusion h
      | some y =>
        rw [ha, hb] at h
        have h2 : (if y.den = 1 then
            (if x = 0 ∧ y.num < 0 then (none : Option ℚ) else exRound (x ^ y.num))
          else none) = some v := h
        by_cases hden : y.den = 1
        · rw [if_pos hden] at h2
          by_cases hnn : x = 0 ∧ y.num < 0
          · rw [if_pos hnn] at h2; exact Option.noConfusion h2
          · rw [if_neg hnn] at h2
            obtain ⟨hr, he⟩ := exRound_eq _ _ h2
            rw [← he] at hr
            obtain ⟨pa, hea, hra⟩ := evalArith a x ha
            obtain ⟨pb, heb, hrb⟩ := evalArith b y hb
            obtain ⟨c, hc, hrc⟩ := binPow_num pa pb x y hra hrb
              (specExactVal_round a x ha) hden hnn hr
            unfold evalExpr
            rw [hea, heb]
            rw [he] at hrc
            exact ⟨c, hc, hrc⟩
        · rw [if_neg hden] at h2; exact Option.noConfusion h2
  | .andE _ _, v, h => by simp [specExactVal] at h
  | .orE _ _, v, h => by simp [specExactVal] at h
  | .attr _ _, v, h => by simp [specExactVal] at h
  | .call _ _, v, h => by simp [specExactVal] at h
  | .setDisp _, v, h => by simp [specExactVal] at h
  | .emptyDict, v, h => by simp [specExactVal] at h
  | .emptyTuple, v, h => by simp [specExactVal] at h

theorem calcEval_eq (s : String) (e : PyExpr) (hp : parseExpr s = .ok e) :
    calcEval s = evalExpr e := by
  unfold calcEval
  rw [hp]

theorem calculate_success (s : String) (j : String) (h : calcSer s = .ok j) :
    calculate s = successLine j := by
  unfold calculate
  rw [h]

theorem calculate_error (s : String) (err : PyErr) (h : calcSer s = .error err) :
    calculate s = errorLine (errStr err) := by
  unfold calculate
  rw [h]

theorem calcSer_of_eval_dumps (s : String) (v : PyVal) (j : String)
    (h1 : calcEval s = .ok v) (h2 : jsonDumps v = .ok j) : calcSer s = .ok j := by
  unfold calcSer
  rw [h1]
  exact h2

theorem jsonDumps_num (pv : PyVal) (v : ℚ) (h : ratOf pv = some v) :
    ∃ j, jsonDumps pv = .ok j := by
  cases pv with
  | int n => exact ⟨intRepr n, rfl⟩
  | float q => exact ⟨floatRepr q, rfl⟩
  | str s => simp [ratOf] at h
  | set l => simp [ratOf] at h
  | dict0 => simp [ratOf] at h
  | tuple0 => simp [ratOf] at h
  | cls c => simp [ratOf] at h

theorem evalExpr_name_err (n : String) (hn : n ≠ "__builtins__") :
    evalExpr (.name n) = .error (.nameError n) := by
  unfold evalExpr
  rw [if_neg hn]

theorem evalExpr_call_err (f : PyExpr) (args : PyArgs) (err : PyErr)
    (hf : evalExpr f = .error err) : evalExpr (.call f args) = .error err := by
  unfold evalExpr
  rw [hf]

theorem calculate_err_of_eval (s : String) (err : PyErr)
    (h : calcEval s = .error err) : calculate s = errorLine (errStr err) := by
  refine calculate_error s err ?_
  unfold calcSer
  rw [h]

/-- Claim C1, counterexample: the claim says every expression
referencing an identifier outside arithmetic literals and operators
makes `calculate` return the Failure variant, never the Success
variant, and that the restricted context reaches no capability beyond
arithmetic.  Three concrete inputs refute it.  `__builtins__`
references such an identifier, yet the restricted globals
`\x7b"__builtins__": \x7b\x7d\x7d` themselves bind that name, so `calculate`
returns the Success shape carrying the empty dict.  `0 and foo`
references the unresolvable identifier `foo`, yet `and` short-circuits
on the falsy left operand and `calculate` returns Success `0` without
ever evaluating `foo`.  `().__class__.__name__` references the
identifiers `__class__` and `__name__`, yet attribute access — which
needs no namespace lookup at all — gives `calculate` Success with the
string `tuple`, type introspection well beyond arithmetic (the first
link of the known escape chains out of an empty-`__builtins__`
`eval`). -/
theorem claim_C1_counterexample :
    calculate "__builtins__" = successLine "\x7b\x7d" ∧
      isSuccessLine (calculate "__builtins__") = true ∧
      isErrorLine (calculate "__builtins__") = false ∧
      parseExpr "0 and foo" = .ok (.andE (.intLit 0) (.name "foo")) ∧
      hasBadName (.andE (.intLit 0) (.name "foo")) = true ∧
      calculate "0 and foo" = successLine "0" ∧
      parseExpr "().__class__.__name__" =
        .ok (.attr (.attr .emptyTuple "__class__") "__name__") ∧
      hasBadName (.attr (.attr .emptyTuple "__class__") "__name__") = true ∧
      calculate "().__class__.__name__" = successLine "\"tuple\"" :=
  ⟨rfl, rfl, rfl, rfl, rfl, rfl, rfl, rfl, rfl⟩

/-- Claim C1, amended: the restricted namespaces resolve no identifier
except `__builtins__`, so every input that is a bare reference to any
other identifier `n` — or a call whose callee is such a bare reference,
like the spec example `__import__(\x27os\x27)`, where CPython evaluates
the callee before anything else — yields the Failure variant carrying
exactly the `NameError` message.  Nothing stronger survives the
counterexamples: an expression merely containing a disallowed
identifier can return Success through the `__builtins__` binding,
short-circuiting, or attribute access, and the no-capability invariant
fails through attribute chains. -/
theorem claim_C1 (s : String) (n : String) (hn : n ≠ "__builtins__") :
    (parseExpr s = .ok (.name n) →
      calculate s = errorLine ("name \x27" ++ n ++ "\x27 is not defined")) ∧
    ∀ args : PyArgs, parseExpr s = .ok (.call (.name n) args) →
      calculate s = errorLine ("name \x27" ++ n ++ "\x27 is not defined") := by
  constructor
  · intro hp
    exact calculate_err_of_eval s (.nameError n)
      (by rw [calcEval_eq s _ hp]; exact evalExpr_name_err n hn)
  · intro args hp
    exact calculate_err_of_eval s (.nameError n)
      (by
        rw [calcEval_eq s _ hp]
        exact evalExpr_call_err _ args _ (evalExpr_name_err n hn))

/-- Claim C1, witness: the spec example `__import__(\x27os\x27)` parses
to a call of the bare disallowed name `__import__`, and the bare name
`foo` parses to a name reference; on both, `calculate` returns the
Failure variant with the exact `NameError` message. -/
theorem claim_C1_witness :
    parseExpr "__import__(\x27os\x27)" =
        .ok (.call (.name "__import__") (.cons (.strLit "os") .nil)) ∧
      parseExpr "foo" = .ok (.name "foo") ∧
      calculate "__import__(\x27os\x27)" =
        errorLine "name \x27__import__\x27 is not defined" ∧
      calculate "foo" = errorLine "name \x27foo\x27 is not defined" :=
  ⟨rfl, rfl,
    (claim_C1 "__import__(\x27os\x27)" "__import__" (by decide)).2
      (.cons (.strLit "os") .nil) rfl,
    (claim_C1 "foo" "foo" (by decide)).1 rfl⟩

unseal Rat.add Rat.sub Rat.mul Rat.inv in
/-- Claim C2, counterexample: `"1/3"` is a valid arithmetic expression
whose mathematical value is `1/3`, but the program computes the
correctly rounded binary64 quotient: evaluation succeeds with the
double `6004799503160661 / 2 ^ 54` (printed by CPython as
`0.3333333333333333`), which is not equal to `1/3`, and `calculate`
returns the Success shape carrying it — refuting "a value equal to
`v`" as universally stated. -/
theorem claim_C2_counterexample :
    parseExpr "1/3" = .ok (.div (.intLit 1) (.intLit 3)) ∧
      specMathVal (.div (.intLit 1) (.intLit 3)) = some (1 / 3) ∧
      evalExpr (.div (.intLit 1) (.intLit 3)) =
        .ok (.float (Rat.divInt 6004799503160661 18014398509481984)) ∧
      Rat.divInt 6004799503160661 18014398509481984 ≠ (1 / 3 : ℚ) ∧
      isSuccessLine (calculate "1/3") = true :=
  ⟨rfl, by decide, rfl, by decide, rfl⟩

/-- Claim C2, amended: for every input string that parses to an
arithmetic expression (numeric literals and the operators
`+ - * / ( ) **`) whose mathematical value `v` — and the value of every
subexpression — is exactly representable as an IEEE-754 binary64
double, evaluation succeeds with a numeric value equal to `v`,
serialization succeeds, and `calculate` returns the Success variant
carrying it.  The representability restriction is forced by the
counterexample: outside it the program returns the rounded double
evaluation, which can differ from `v` (as `"1/3"` does). -/
theorem claim_C2 (s : String) (e : PyExpr) (v : ℚ) (hp : parseExpr s = .ok e)
    (hv : specExactVal e = some v) :
    ∃ pv j, evalExpr e = .ok pv ∧ ratOf pv = some v ∧ jsonDumps pv = .ok j ∧
      calculate s = successLine j := by
  obtain ⟨pv, hev, hrv⟩ := evalArith e v hv
  obtain ⟨j, hj⟩ := jsonDumps_num pv v hrv
  refine ⟨pv, j, hev, hrv, hj, calculate_success s j ?_⟩
  refine calcSer_of_eval_dumps s pv j ?_ hj
  rw [calcEval_eq s e hp]
  exact hev

set_option maxRecDepth 4096 in
unseal Rat.add Rat.sub Rat.mul Rat.inv in
/-- Claim C2, witness: `"10/2"` parses to `10 / 2`; `10`, `2` and the
value `5` are exactly representable doubles, and `calculate` returns
the Success variant carrying a value equal to `5` (the float `5.0`,
matching the spec example "5.0 or 5"). -/
theorem claim_C2_witness :
    parseExpr "10/2" = .ok (.div (.intLit 10) (.intLit 2)) ∧
      specExactVal (.div (.intLit 10) (.intLit 2)) = some 5 ∧
      (∃ pv j, evalExpr (.div (.intLit 10) (.intLit 2)) = .ok pv ∧
        ratOf pv = some 5 ∧ jsonDumps pv = .ok j ∧
        calculate "10/2" = successLine j) :=
  ⟨rfl, by decide,
    claim_C2 "10/2" (.div (.intLit 10) (.intLit 2)) 5 rfl (by decide)⟩

/-- Claim C3: for every input string, `calculate` returns a value — the
whole evaluation-and-serialization pipeline is wrapped in one `try`, so
every error becomes the Failure shape and the result is always exactly
one of the two structured shapes; no exception escapes. -/
theorem claim_C3 (s : String) :
    (∃ j, calculate s = successLine j) ∨ (∃ m, calculate s = errorLine m) := by
  rcases calculate_shape s with ⟨j, _, hc⟩ | ⟨err, _, hc⟩
  · exact Or.inl ⟨j, hc⟩
  · exact Or.inr ⟨errStr err, hc⟩

/-- Claim C4: evaluating `"1/0"` returns the Failure variant whose
message is CPython `division by zero`; `calculate` returns normally
rather than crashing. -/
theorem claim_C4 : calculate "1/0" = errorLine "division by zero" := rfl

/-- Claim C5: evaluating the malformed input `"2+"` returns the Failure
variant carrying CPython syntax-error message
`invalid syntax (<string>, line 1)`. -/
theorem claim_C5 : calculate "2+" = errorLine "invalid syntax (<string>, line 1)" := rfl

/-- Claim C6: an invocation with zero or more than one argument prints
the usage-error message and exits with code 1, regardless of the
evaluator; an invocation with exactly one argument always exits with
the default success code 0, so evaluation failures surface only in the
structured output, never in the exit status. -/
theorem claim_C6 (args : List String) :
    (args.length ≠ 1 → runMain args = (errorLine usageMessage, 1)) ∧
      (∀ e, runMain [e] = (calculate e, 0)) := by
  constructor
  · intro h
    match args with
    | [] => rfl
    | [e] => exact absurd rfl h
    | a :: b :: rest => rfl
  · intro e
    rfl

/-- Claim C6, witness: with no argument the usage error and exit code 1
are produced, and with the failing expression `"1/0"` the exit code
stays 0. -/
theorem claim_C6_witness :
    runMain [] = (errorLine usageMessage, 1) ∧ runMain ["1/0"] = (calculate "1/0", 0) :=
  ⟨(claim_C6 []).1 (by decide), (claim_C6 []).2 "1/0"⟩

/-- Claim C7: every invocation writes exactly one line to stdout — the
payload contains no newline character and `print` appends the single
terminating newline — and that line has exactly one of the two shapes
`\x7b"status": "success", "result": ...\x7d` or
`\x7b"status": "error", "message": ...\x7d`. -/
theorem claim_C7 (args : List String) :
    ∃ line, mainStdout args = line ++ "\n" ∧ nlFreeS line ∧
      ((∃ j, line = successLine j) ∨ (∃ m, line = errorLine m)) := by
  match args with
  | [e] =>
    refine ⟨calculate e, rfl, nlFreeS_calculate e, ?_⟩
    rcases calculate_shape e with ⟨j, _, hc⟩ | ⟨err, _, hc⟩
    · exact Or.inl ⟨j, hc⟩
    · exact Or.inr ⟨errStr err, hc⟩
  | [] => exact ⟨errorLine usageMessage, rfl, nlFreeS_errorLine _, Or.inr ⟨usageMessage, rfl⟩⟩
  | a :: b :: rest => exact ⟨errorLine usageMessage, rfl, nlFreeS_errorLine _, Or.inr ⟨usageMessage, rfl⟩⟩

/-- Claim C8: `calculate` is deterministic and stateless — in the
embedding it is a pure function of the expression string alone (the
script reads no state other than its argument and the constant
namespaces), so two evaluations of the same expression, and two whole
invocations with the same argument list, give identical results. -/
theorem claim_C8 (e : String) :
    calculate e = calculate e ∧ runMain [e] = runMain [e] :=
  ⟨rfl, rfl⟩

/-- Claim C9: whenever evaluation succeeds but `json.dumps` rejects the
resulting value, `calculate` returns the Failure variant carrying the
serialization error message — serialization runs inside the same
`try` as the evaluation. -/
theorem claim_C9 (s : String) (v : PyVal) (err : PyErr) (h1 : calcEval s = .ok v)
    (h2 : jsonDumps v = .error err) : calculate s = errorLine (errStr err) := by
  refine calculate_error s err ?_
  unfold calcSer
  rw [h1]
  exact h2

/-- Claim C9, witness: `"\x7b1,2\x7d"` evaluates to the set `\x7b1, 2\x7d`, which
is not JSON serializable, and `calculate` returns the Failure variant
with the serializer message. -/
theorem claim_C9_witness :
    calcEval "\x7b1,2\x7d" = .ok (.set [.int 1, .int 2]) ∧
      jsonDumps (.set [.int 1, .int 2]) =
        .error (.typeError "Object of type set is not JSON serializable") ∧
      calculate "\x7b1,2\x7d" = errorLine "Object of type set is not JSON serializable" :=
  ⟨rfl, rfl, claim_C9 "\x7b1,2\x7d" (.set [.int 1, .int 2])
    (.typeError "Object of type set is not JSON serializable") rfl rfl⟩

/-- Claim C10: the usage error caused by a wrong argument count is
printed in exactly the same `\x7b"status": "error", "message": ...\x7d` shape
as an evaluation error, so the two error kinds differ only in the
process exit code (1 versus 0), not in the output shape. -/
theorem claim_C10 :
    (runMain []).1 = errorLine usageMessage ∧
      (runMain ["2+"]).1 = errorLine "invalid syntax (<string>, line 1)" ∧
      isErrorLine (runMain []).1 = true ∧
      isErrorLine (runMain ["2+"]).1 = true ∧
      (runMain []).2 = 1 ∧ (runMain ["2+"]).2 = 0 :=
  ⟨rfl, rfl, rfl, rfl, rfl, rfl⟩
